import Mathlib

/-!
# Verification of the HLS playlist generation pipeline

A shallow embedding of the text-to-clip matching and playlist assembly
pipeline of `hls-generator-server.js` (class `HLSBuilder`): text
normalization and tokenization, greedy longest-phrase matching, seeded
clip selection with reuse avoidance, script building, and M3U8
serialization.

Conventions of the embedding:
* JavaScript strings are Lean `String`s; character-level steps work on
  `String.data : List Char`.
* The manifest object loaded at startup is the `Manifest` structure.
  JS property lookups that are only ever truthiness-tested are embedded
  as the truthiness value (`phraseMap : String → Bool`); lookups used as
  `x || []` are embedded with `[]` for a missing key
  (`phraseClips : String → List Clip`); optional-chained lookups are
  `Option` valued.
* Clip durations (JSON numbers) are embedded as rationals.
* `crypto.createHash('md5')...digest('hex').substr(0, 8)` parsed as a
  hex integer is an external library call; it is passed in as an
  explicit function argument `md5Head8 : String → Nat`, so every theorem
  holds for the real MD5-derived value.  `md5Model` below is a concrete
  deterministic stand-in used only to instantiate witnesses.
* `new Date().toISOString()` inside `buildM3U8` is an external clock
  read, passed in as the explicit argument `now : String`.
* The JS `usedClips : Set<string>` is embedded as a `List String`; the
  set is only ever observed through membership (`has`), which `List`
  membership models exactly (`add` is cons).
-/

namespace HLS

/-! ## JavaScript character classes

The server's regexes use the non-Unicode-mode classes `\w` and `\s`:
`\w` is `[A-Za-z0-9_]`, `\s` is the ECMAScript white-space and
line-terminator set. -/

/-- ECMAScript `\w` (no `u` flag): `[A-Za-z0-9_]`. -/
def wordChar (c : Char) : Bool :=
  ('a' ≤ c && c ≤ 'z') || ('A' ≤ c && c ≤ 'Z') || ('0' ≤ c && c ≤ '9') || c = '_'

/-- ECMAScript `\s`: tab, LF, VT, FF, CR, space, NBSP, Ogham space mark,
U+2000–U+200A, LS, PS, NNBSP, MMSP, ideographic space, BOM. -/
def spaceChar (c : Char) : Bool :=
  c = '\t' || c = '\n' || c = '\x0b' || c = '\x0c' || c = '\x0d' || c = ' ' ||
  c = ' ' || c = ' ' || (' ' ≤ c && c ≤ ' ') ||
  c = ' ' || c = ' ' || c = ' ' || c = ' ' ||
  c = '　' || c = '﻿'

/-- The test `/^[^\w\s]+$/.test(token)` used throughout the server to
classify a token as punctuation: non-empty and made only of characters
that are neither word characters nor white space. -/
def isPunct (t : String) : Bool :=
  !t.data.isEmpty && t.data.all (fun c => !wordChar c && !spaceChar c)

/-! ## Data model -/

/-- A clip descriptor from the manifest: `{filename, duration}`. -/
structure Clip where
  filename : String
  duration : ℚ
deriving Repr, DecidableEq

/-- The read-only catalog the `HLSBuilder` constructor extracts from the
manifest file.

* `phraseMap s` is the truthiness of `this.phraseMap[s]` (the code only
  ever tests it).
* `phraseClips s` is `this.phraseClips[s]`, with `[]` for a missing key
  (the code reads it as `this.phraseClips[p] || []` or guards with
  `.length > 0`, so a missing key and `[]` are indistinguishable).
* `punctuationClips k` is `this.staticClips.punctuation?.[k]`,
  `wordClips k` is `this.staticClips.words?.[k]`.
* `fixedTokens` is `this.manifest.fixedTokens`; `none` embeds a missing
  (falsy) field.  A present-but-empty token array is `some []` (truthy
  in JS, since `![]` is `false`). -/
structure Manifest where
  phraseMap : String → Bool
  phraseClips : String → List Clip
  punctuationClips : String → Option Clip
  wordClips : String → Option Clip
  fixedTokens : Option (List String)

/-- `CONFIG.maxPhraseLength`. -/
def maxPhraseLength : Nat := 10

/-! ## Text normalizer (`normalizeAndTokenize`) -/

/-- The `quoteMap` table: typographic quote/apostrophe/dash variants to
ASCII.  The JS code applies 14 successive single-character
`replaceAll`s; since no key of the table equals a value of the table,
that equals one simultaneous character map. -/
def quoteMapChar (c : Char) : Char :=
  if c = '‘' then '\'' else if c = '’' then '\''
  else if c = '‚' then '\'' else if c = '‛' then '\''
  else if c = '“' then '"' else if c = '”' then '"'
  else if c = '„' then '"' else if c = '‟' then '"'
  else if c = '′' then '\'' else if c = '″' then '"'
  else if c = '\x60' then '\'' else if c = '´' then '\''
  else if c = '–' then '-' else if c = '—' then '-'
  else c

/-- A combining diacritical mark, U+0300–U+036F (the range the code
strips after decomposition). -/
def combiningMark (c : Char) : Bool :=
  '̀' ≤ c && c ≤ 'ͯ'

/-- Canonical decomposition of one character, modelling the library call
`String.prototype.normalize('NFD')` on the Latin-1 Supplement letters
with a canonical decomposition (the precomposed base-plus-diacritic
letters A–Z/a–z with grave, acute, circumflex, tilde, diaeresis, ring or
cedilla).  Characters outside this table decompose to themselves. -/
def nfdChar (c : Char) : List Char :=
  if c = 'À' then ['A', '̀'] else if c = 'Á' then ['A', '́']
  else if c = 'Â' then ['A', '̂'] else if c = 'Ã' then ['A', '̃']
  else if c = 'Ä' then ['A', '̈'] else if c = 'Å' then ['A', '̊']
  else if c = 'Ç' then ['C', '̧']
  else if c = 'È' then ['E', '̀'] else if c = 'É' then ['E', '́']
  else if c = 'Ê' then ['E', '̂'] else if c = 'Ë' then ['E', '̈']
  else if c = 'Ì' then ['I', '̀'] else if c = 'Í' then ['I', '́']
  else if c = 'Î' then ['I', '̂'] else if c = 'Ï' then ['I', '̈']
  else if c = 'Ñ' then ['N', '̃']
  else if c = 'Ò' then ['O', '̀'] else if c = 'Ó' then ['O', '́']
  else if c = 'Ô' then ['O', '̂'] else if c = 'Õ' then ['O', '̃']
  else if c = 'Ö' then ['O', '̈']
  else if c = 'Ù' then ['U', '̀'] else if c = 'Ú' then ['U', '́']
  else if c = 'Û' then ['U', '̂'] else if c = 'Ü' then ['U', '̈']
  else if c = 'Ý' then ['Y', '́']
  else if c = 'à' then ['a', '̀'] else if c = 'á' then ['a', '́']
  else if c = 'â' then ['a', '̂'] else if c = 'ã' then ['a', '̃']
  else if c = 'ä' then ['a', '̈'] else if c = 'å' then ['a', '̊']
  else if c = 'ç' then ['c', '̧']
  else if c = 'è' then ['e', '̀'] else if c = 'é' then ['e', '́']
  else if c = 'ê' then ['e', '̂'] else if c = 'ë' then ['e', '̈']
  else if c = 'ì' then ['i', '̀'] else if c = 'í' then ['i', '́']
  else if c = 'î' then ['i', '̂'] else if c = 'ï' then ['i', '̈']
  else if c = 'ñ' then ['n', '̃']
  else if c = 'ò' then ['o', '̀'] else if c = 'ó' then ['o', '́']
  else if c = 'ô' then ['o', '̂'] else if c = 'õ' then ['o', '̃']
  else if c = 'ö' then ['o', '̈']
  else if c = 'ù' then ['u', '̀'] else if c = 'ú' then ['u', '́']
  else if c = 'û' then ['u', '̂'] else if c = 'ü' then ['u', '̈']
  else if c = 'ý' then ['y', '́'] else if c = 'ÿ' then ['y', '̈']
  else [c]

/-- A character of the first tokenizer alternative `[\w'-]+`: word
characters, apostrophe, hyphen. -/
def wordRunChar (c : Char) : Bool :=
  wordChar c || c = '\'' || c = '-'

/-- The tokenizer regex `/[\w'-]+|[^\w\s'-]/g`, scanning left to right:
a maximal run of word-run characters is one token; any other
non-white-space character is its own single-character token; white
space separates and yields no token.  The scan consumes at least one
character per step, so it is written structurally on a fuel bounded by
the character count (`tokenizeCharsAux_fuel` below shows any fuel of at
least the list's length gives the same result). -/
def tokenizeCharsAux : Nat → List Char → List String
  | 0, _ => []
  | _, [] => []
  | fuel + 1, c :: cs =>
    if wordRunChar c then
      String.mk (c :: cs.takeWhile wordRunChar) ::
        tokenizeCharsAux fuel (cs.dropWhile wordRunChar)
    else if !spaceChar c then
      String.mk [c] :: tokenizeCharsAux fuel cs
    else
      tokenizeCharsAux fuel cs

/-- The whole tokenizing scan of a character list. -/
def tokenizeChars (l : List Char) : List String :=
  tokenizeCharsAux l.length l

/-- `normalizeAndTokenize`: strip BOM/zero-width characters, fold
typographic quotes/dashes to ASCII, NFD-decompose and strip combining
marks, lowercase (`String.prototype.toLowerCase`, which on the ASCII
text this pipeline produces is the ASCII case map `Char.toLower`), then
tokenize. -/
def normalizeAndTokenize (text : String) : List String :=
  let t1 := text.data.filter
    (fun c => !(c = '﻿' || c = '​' || c = '‌' || c = '‍'))
  let t2 := t1.map quoteMapChar
  let t3 := (t2.flatMap nfdChar).filter (fun c => !combiningMark c)
  let t4 := t3.map Char.toLower
  tokenizeChars t4

/-! ## Phrase matcher (`greedyMatchPhrases`) -/

/-- A phrase match `{phrase, start, end}` over the half-open token-index
range `[start, stop)` (the JS field `end` is `stop` here: `end` is a
Lean keyword). -/
structure PhraseMatch where
  phrase : String
  start : Nat
  stop : Nat
deriving Repr, DecidableEq

/-- One iteration of the inner `for (length = maxLen; length > 0;
length--)` body at a fixed candidate length: collect up to `length`
consecutive non-punctuation tokens starting at `i` (the inner `while`
with its punctuation `break`); if exactly `length` were collected, join
them with spaces and accept the candidate iff it is truthy in
`phraseMap` and its `phraseClips` pool is non-empty. -/
def candidateAt (m : Manifest) (tokens : List String) (i length : Nat) :
    Option String :=
  let phraseTokens := ((tokens.drop i).takeWhile (fun t => !isPunct t)).take length
  if phraseTokens.length = length then
    let candidate := String.intercalate " " phraseTokens
    if m.phraseMap candidate && (m.phraseClips candidate).length > 0 then
      some candidate
    else none
  else none

/-- The inner `for` loop of `greedyMatchPhrases`, trying lengths from
`maxLen` down to `1` and stopping at the first accepted candidate
(the `break`); `none` when no length matched. -/
def findBest (m : Manifest) (tokens : List String) (i : Nat) :
    Nat → Option (String × Nat)
  | 0 => none
  | maxLen + 1 =>
    match candidateAt m tokens i (maxLen + 1) with
    | some candidate => some (candidate, maxLen + 1)
    | none => findBest m tokens i maxLen

/-- The outer `while (i < tokens.length)` loop of `greedyMatchPhrases`:
skip a punctuation token; otherwise try the longest acceptable phrase
starting at `i` and either record a match and jump past it, or advance
by one.  Every iteration advances `i` by at least one (`findBest` never
returns a length of `0`, see `findBest_len_bounds`), so the loop is
written structurally on a fuel bounded by the remaining token count
(`greedyMatchPhrasesAux_fuel` below shows any fuel of at least
`tokens.length - i` gives the same result). -/
def greedyMatchPhrasesAux (m : Manifest) (tokens : List String) :
    Nat → Nat → List PhraseMatch
  | 0, _ => []
  | fuel + 1, i =>
    if h : i < tokens.length then
      if isPunct tokens[i] then
        greedyMatchPhrasesAux m tokens fuel (i + 1)
      else
        match findBest m tokens i (min maxPhraseLength (tokens.length - i)) with
        | some (best, len) =>
          { phrase := best, start := i, stop := i + len } ::
            greedyMatchPhrasesAux m tokens fuel (i + len)
        | none => greedyMatchPhrasesAux m tokens fuel (i + 1)
    else []

/-- `greedyMatchPhrases(tokens)`: run the outer loop from `i = 0`. -/
def greedyMatchPhrases (m : Manifest) (tokens : List String) : List PhraseMatch :=
  greedyMatchPhrasesAux m tokens tokens.length 0

/-! ## Clip selector (`selectClip`) -/

/-- `selectClip(availableClips, usedClips, seedStr)` with the MD5-based
index derivation (`parseInt(md5hex(seedStr).substr(0, 8), 16)`) passed
in as `md5Head8`.  Returns the selected clip (`null` embedded as
`none`) together with the updated `usedClips` set.  The JS guard is
`!availableClips || availableClips.length === 0`; a missing pool is
embedded as `[]`.  The `none` fallback of the final lookup is
unreachable, since `index` is reduced modulo the positive pool length
(`selectClip_fst_eq_none_iff` below). -/
def selectClip (md5Head8 : String → Nat) (availableClips : List Clip)
    (usedClips : List String) (seedStr : String) : Option Clip × List String :=
  if availableClips.length = 0 then (none, usedClips)
  else
    let unused := availableClips.filter (fun clip => !usedClips.contains clip.filename)
    let pool := if unused.length > 0 then unused else availableClips
    let index := md5Head8 seedStr % pool.length
    match pool[index]? with
    | some selected => (some selected, selected.filename :: usedClips)
    | none => (none, usedClips)

/-- A concrete deterministic stand-in for the MD5-derived 32-bit index
seed, used only to evaluate the pipeline at concrete inputs; every
general theorem takes the hash function as an argument. -/
def md5Model (s : String) : Nat :=
  s.data.foldl (fun h c => (h * 131 + c.toNat) % 4294967296) 0

/-! ## Static fallback (`slugify`, `getStaticClip`) -/

/-- `slugify(text)`: `text.replace(/[^a-z0-9]/g, '_')`. -/
def slugify (text : String) : String :=
  String.mk (text.data.map fun c =>
    if ('a' ≤ c && c ≤ 'z') || ('0' ≤ c && c ≤ '9') then c else '_')

/-- The punctuation-variant mapping at the head of `getStaticClip`.  In
the source file the first line literally compares `token` against the
ASCII double quote three times and the second line against the ASCII
apostrophe three times (the file's characters at those comparisons are
`0x22` and `0x27`; only the dash line compares against the real em/en
dash characters U+2014 and U+2013), so the first two lines can only
rewrite a token to itself and never change `punct`. -/
def punctVariant (token : String) : String :=
  let punct := token
  let punct := if token = "\"" || token = "\"" || token = "\"" then "\"" else punct
  let punct := if token = "'" || token = "'" || token = "'" then "'" else punct
  let punct := if token = "—" || token = "–" then "-" else punct
  punct

/-- `getStaticClip(token)`: for a punctuation token, look up the
variant-mapped token in `staticClips.punctuation`, defaulting to the
`'.'` entry, else `null`; for a word token, look up the slugified token
in `staticClips.words`, with no further fallback. -/
def getStaticClip (m : Manifest) (token : String) : Option Clip :=
  if isPunct token then
    match m.punctuationClips (punctVariant token) with
    | some clip => some clip
    | none => m.punctuationClips "."
  else
    let slugifiedToken := slugify token
    match m.wordClips slugifiedToken with
    | some wordClip => some wordClip
    | none => none

/-! ## Script builder (`generateScript`) -/

/-- One emitted clip reference `{text, filename, duration, type}`. -/
structure ScriptItem where
  text : String
  filename : String
  duration : ℚ
  type : String
deriving Repr, DecidableEq

/-- Membership in the `covered` set `generateScript` precomputes: the JS
code adds every `i` with `match.start <= i < match.end` for some match,
so `covered.has(i)` is exactly this disjunction. -/
def coveredBy (matchList : List PhraseMatch) (i : Nat) : Bool :=
  matchList.any (fun mt => mt.start ≤ i && i < mt.stop)

/-- The `phrase`-type ScriptItem emitted for a match:
`{text: tokens.slice(start, end).join(' '), filename, duration,
type: 'phrase'}`. -/
def mkPhraseItem (tokens : List String) (mt : PhraseMatch) (clip : Clip) : ScriptItem :=
  { text := String.intercalate " " ((tokens.drop mt.start).take (mt.stop - mt.start)),
    filename := clip.filename, duration := clip.duration, type := "phrase" }

/-- The `static`-type ScriptItem emitted for an unmatched token. -/
def mkStaticItem (token : String) (clip : Clip) : ScriptItem :=
  { text := token, filename := clip.filename, duration := clip.duration,
    type := "static" }

/-- The `for (let i = 0; i < tokens.length; i++)` loop of
`generateScript`.  At a position where a match starts
(`matches.find(m => m.start === i)`), a clip is selected with seed
`seed + match.phrase`, at most one `phrase` item is emitted, and `i`
jumps to `match.end` (`i = match.end - 1` plus the increment); at an
uncovered position a static fallback is resolved and at most one
`static` item is emitted; at a covered non-start position nothing
happens.  Each iteration advances `i` by at least one for the match
lists the matcher produces (`match.end > match.start`), so the loop is
written structurally on a fuel of `tokens.length` iterations, which is
enough because `i` starts at `0` and the loop stops as soon as
`i ≥ tokens.length`. -/
def generateScriptAux (md5Head8 : String → Nat) (m : Manifest)
    (tokens : List String) (matchList : List PhraseMatch) (seed : String) :
    Nat → Nat → List String → List ScriptItem
  | 0, _, _ => []
  | fuel + 1, i, usedClips =>
    if h : i < tokens.length then
      let token := tokens[i]
      match matchList.find? (fun mt => mt.start == i) with
      | some mt =>
        let availableClips := m.phraseClips mt.phrase
        let selected := selectClip md5Head8 availableClips usedClips (seed ++ mt.phrase)
        let rest := generateScriptAux md5Head8 m tokens matchList seed fuel mt.stop selected.2
        match selected.1 with
        | some clip => mkPhraseItem tokens mt clip :: rest
        | none => rest
      | none =>
        if coveredBy matchList i then
          generateScriptAux md5Head8 m tokens matchList seed fuel (i + 1) usedClips
        else
          match getStaticClip m token with
          | some staticClip =>
            mkStaticItem token staticClip ::
              generateScriptAux md5Head8 m tokens matchList seed fuel (i + 1) usedClips
          | none => generateScriptAux md5Head8 m tokens matchList seed fuel (i + 1) usedClips
    else []

/-- `generateScript(tokens, matches, sessionId)`: run the loop from
`i = 0` with an empty `usedClips` set and `seed = sessionId`. -/
def generateScript (md5Head8 : String → Nat) (m : Manifest) (tokens : List String)
    (matchList : List PhraseMatch) (sessionId : String) : List ScriptItem :=
  generateScriptAux md5Head8 m tokens matchList sessionId tokens.length 0 []

/-! ## Per-index reference builder

The specification describes the script builder index by index: walk `i`
from `0` to `tokens.length`; a position where a match starts emits the
phrase item, a covered non-start position emits nothing and attempts no
fallback, and an uncovered position attempts exactly one static
fallback.  `buildByIndex` is that description, written so that every
index is handled by exactly one `stepAt`; the claim-level theorem shows
`generateScript` refines it on the matcher's output. -/

/-- How the spec's builder handles one token index: the emitted items
(at most one) and the updated used-clip set. -/
def stepAt (md5Head8 : String → Nat) (m : Manifest) (tokens : List String)
    (matchList : List PhraseMatch) (seed : String) (usedClips : List String)
    (i : Nat) : List ScriptItem × List String :=
  match matchList.find? (fun mt => mt.start == i) with
  | some mt =>
    let selected := selectClip md5Head8 (m.phraseClips mt.phrase) usedClips (seed ++ mt.phrase)
    ((match selected.1 with
      | some clip => [mkPhraseItem tokens mt clip]
      | none => []), selected.2)
  | none =>
    if coveredBy matchList i then ([], usedClips)
    else
      match getStaticClip m (tokens.getD i "") with
      | some staticClip => ([mkStaticItem (tokens.getD i "") staticClip], usedClips)
      | none => ([], usedClips)

/-- Run `stepAt` once for each listed index, threading the used-clip
set and concatenating the emissions. -/
def runSteps (md5Head8 : String → Nat) (m : Manifest) (tokens : List String)
    (matchList : List PhraseMatch) (seed : String) :
    List Nat → List String → List ScriptItem × List String
  | [], usedClips => ([], usedClips)
  | i :: rest, usedClips =>
    let once := stepAt md5Head8 m tokens matchList seed usedClips i
    let more := runSteps md5Head8 m tokens matchList seed rest once.2
    (once.1 ++ more.1, more.2)

/-- The spec's per-index builder: one `stepAt` for every token index
`0, 1, …, tokens.length - 1`, in order. -/
def buildByIndex (md5Head8 : String → Nat) (m : Manifest) (tokens : List String)
    (matchList : List PhraseMatch) (seed : String) : List ScriptItem :=
  (runSteps md5Head8 m tokens matchList seed (List.range tokens.length) []).1

/-! ## Playlist serializer (`buildM3U8`) -/

/-- `Number.prototype.toFixed(f)` for a non-negative rational: the
integer closest to `x·10^f` (halves rounding to the larger integer),
rendered with exactly `f` digits after the point. -/
def toFixedPos (x : ℚ) (f : Nat) : String :=
  let n : Nat := (⌊x * (10 : ℚ) ^ f + 1 / 2⌋).toNat
  let ds := (toString n).data
  if f = 0 then String.mk ds
  else
    let padded := List.replicate (f + 1 - ds.length) '0' ++ ds
    String.mk (padded.take (padded.length - f)) ++ "." ++
      String.mk (padded.drop (padded.length - f))

/-- `Number.prototype.toFixed(f)`: sign followed by the non-negative
rendering. -/
def toFixed (x : ℚ) (f : Nat) : String :=
  if x < 0 then "-" ++ toFixedPos (-x) f else toFixedPos x f

/-- The fixed opener segment's duration, `const openerDuration = 8.08`. -/
def openerDuration : ℚ := 808 / 100

/-- The opener clip URL: absolute under `CONFIG.r2BaseUrl` when that is
configured, else site-relative. -/
def openerPath (r2BaseUrl : Option String) : String :=
  match r2BaseUrl with
  | some base => base ++ "/hls_clips/static/opener.ts"
  | none => "/hls_clips/static/opener.ts"

/-- A script item's clip URL: `trimmed` for `phrase` clips, `static`
otherwise; absolute under `CONFIG.r2BaseUrl` when configured. -/
def clipPath (r2BaseUrl : Option String) (item : ScriptItem) : String :=
  match r2BaseUrl with
  | some base =>
    if item.type = "phrase" then base ++ "/hls_clips/trimmed/" ++ item.filename
    else base ++ "/hls_clips/static/" ++ item.filename
  | none =>
    if item.type = "phrase" then "/hls_clips/trimmed/" ++ item.filename
    else "/hls_clips/static/" ++ item.filename

/-- The three lines one script item contributes to the playlist: an
unconditional discontinuity tag, the `#EXTINF` duration tag, and the
clip URL. -/
def segmentLines (r2BaseUrl : Option String) (item : ScriptItem) : List String :=
  ["#EXT-X-DISCONTINUITY", "#EXTINF:" ++ toFixed item.duration 3 ++ ",",
   clipPath r2BaseUrl item]

/-- `buildM3U8(script, sessionId)` as its list of lines (the JS code
builds `lines` and returns `lines.join('\n')`): header tags, session
and generation-time comments, the clip count comment, the opener
segment, one segment per script item, the `#EXT-X-ENDLIST` tag, and a
final total-duration comment.  `now` is the external clock read
`new Date().toISOString()`. -/
def buildM3U8Lines (r2BaseUrl : Option String) (script : List ScriptItem)
    (sessionId : String) (now : String) : List String :=
  ["#EXTM3U", "#EXT-X-VERSION:3", "#EXT-X-TARGETDURATION:10",
   "#EXT-X-PLAYLIST-TYPE:VOD",
   "# Session: " ++ sessionId,
   "# Generated: " ++ now,
   "# Clips: " ++ toString (script.length + 1),
   "#EXT-X-DISCONTINUITY",
   "#EXTINF:" ++ toFixed openerDuration 3 ++ ",",
   openerPath r2BaseUrl]
  ++ (script.map (segmentLines r2BaseUrl)).flatten
  ++ ["#EXT-X-ENDLIST",
      "# Total duration: " ++
        toFixed (script.foldl (fun acc item => acc + item.duration) openerDuration) 1
        ++ "s"]

/-- `buildM3U8`'s return value, `lines.join('\n')`. -/
def buildM3U8 (r2BaseUrl : Option String) (script : List ScriptItem)
    (sessionId : String) (now : String) : String :=
  String.intercalate "\n" (buildM3U8Lines r2BaseUrl script sessionId now)

/-- Whether a playlist line is an `#EXTINF` duration tag: used to state
the structural properties of `buildM3U8`'s output ("every `#EXTINF`
line…"). -/
def extinfTag (line : String) : Bool :=
  "#EXTINF:".data.isPrefixOf line.data

/-! ## Pipeline entry point (`generatePlaylist`) -/

/-- What `generatePlaylist` returns: `{playlist, script, tokens,
matches}` (the JS field `matches` is `matchList` here: `matches` is a
Lean keyword). -/
structure GenerateResult where
  playlist : String
  script : List ScriptItem
  tokens : List String
  matchList : List PhraseMatch
deriving Repr, DecidableEq

/-- `generatePlaylist(sessionId)`: use the manifest's precomputed
`fixedTokens`; with no fixed tokens (`!tokens`) throw
`'No fixed text available in manifest'` (embedded as `Except.error`);
otherwise match phrases, build the script, serialize, and return all
four artifacts. -/
def generatePlaylist (md5Head8 : String → Nat) (r2BaseUrl : Option String)
    (m : Manifest) (sessionId : String) (now : String) :
    Except String GenerateResult :=
  match m.fixedTokens with
  | none => Except.error "No fixed text available in manifest"
  | some tokens =>
    let matchList := greedyMatchPhrases m tokens
    let script := generateScript md5Head8 m tokens matchList sessionId
    let playlist := buildM3U8 r2BaseUrl script sessionId now
    Except.ok { playlist := playlist, script := script, tokens := tokens,
                matchList := matchList }

/-! ## Concrete fixtures for witnesses and counterexamples -/

/-- A manifest with no phrases, no static clips, and an empty (but
present, hence truthy) fixed token list. -/
def emptyManifest : Manifest where
  phraseMap := fun _ => false
  phraseClips := fun _ => []
  punctuationClips := fun _ => none
  wordClips := fun _ => none
  fixedTokens := some []

/-- A manifest whose static punctuation pool has a clip for the ASCII
double quote and a clip for the period. -/
def quoteDotManifest : Manifest where
  phraseMap := fun _ => false
  phraseClips := fun _ => []
  punctuationClips := fun k =>
    if k = "\"" then some { filename := "quote.ts", duration := 1 }
    else if k = "." then some { filename := "dot.ts", duration := 1 }
    else none
  wordClips := fun _ => none
  fixedTokens := none

/-- A manifest whose phrase dictionary holds `"good morning"`,
`"morning"` and `"good"`, with clips for the first two. -/
def goodMorningManifest : Manifest where
  phraseMap := fun s => s = "good morning" || s = "morning" || s = "good"
  phraseClips := fun s =>
    if s = "good morning" then [{ filename := "gm.ts", duration := 2 }]
    else if s = "morning" then [{ filename := "m.ts", duration := 1 }]
    else []
  punctuationClips := fun _ => none
  wordClips := fun _ => none
  fixedTokens := some ["good", "morning"]

/-! ## Fuel adequacy

The fuelled loops compute the same result for any fuel at least the
iteration bound, so the chosen fuels model the unbounded JS loops. -/

/-- The tokenizing scan gives the same answer for any fuel covering the
character count: each step consumes at least one character. -/
theorem tokenizeCharsAux_fuel (fuel : Nat) :
    ∀ (fuel' : Nat) (l : List Char), l.length ≤ fuel → l.length ≤ fuel' →
      tokenizeCharsAux fuel l = tokenizeCharsAux fuel' l := by
  induction fuel with
  | zero =>
    intro fuel' l hl _
    have : l = [] := List.eq_nil_of_length_eq_zero (Nat.le_zero.mp hl)
    subst this
    cases fuel' <;> rfl
  | succ fuel ih =>
    intro fuel' l hl hl'
    cases l with
    | nil => cases fuel' <;> rfl
    | cons c cs =>
      cases fuel' with
      | zero => exact absurd hl' (by simp)
      | succ fuel' =>
        have hdw := (List.dropWhile_suffix (l := cs) wordRunChar).length_le
        simp only [List.length_cons] at hl hl'
        simp only [tokenizeCharsAux]
        rw [ih fuel' (cs.dropWhile wordRunChar) (by omega) (by omega),
            ih fuel' cs (by omega) (by omega)]

/-- A successful `findBest` returns a length between `1` and the bound:
the inner `for` loop only tries lengths `maxLen, …, 1`. -/
theorem findBest_len_bounds (m : Manifest) (tokens : List String) (i : Nat) :
    ∀ (n : Nat) (p : String) (len : Nat), findBest m tokens i n = some (p, len) →
      1 ≤ len ∧ len ≤ n := by
  intro n
  induction n with
  | zero => intro p len h; simp [findBest] at h
  | succ k ih =>
    intro p len h
    rw [findBest] at h
    cases hc : candidateAt m tokens i (k + 1) <;> rw [hc] at h
    · have := ih p len h
      omega
    · cases h
      omega

/-- A successful `findBest` result is an accepted candidate of its
length, and no longer length within the bound is accepted: the loop
runs downward and stops at the first success. -/
theorem findBest_eq_some (m : Manifest) (tokens : List String) (i : Nat) :
    ∀ (n : Nat) (p : String) (len : Nat), findBest m tokens i n = some (p, len) →
      candidateAt m tokens i len = some p ∧
      ∀ L, len < L → L ≤ n → candidateAt m tokens i L = none := by
  intro n
  induction n with
  | zero => intro p len h; simp [findBest] at h
  | succ k ih =>
    intro p len h
    rw [findBest] at h
    cases hc : candidateAt m tokens i (k + 1) <;> rw [hc] at h
    · obtain ⟨h1, h2⟩ := ih p len h
      have hle := (findBest_len_bounds m tokens i k p len h).2
      refine ⟨h1, fun L hL hL' => ?_⟩
      rcases Nat.lt_or_ge L (k + 1) with hlt | hge
      · exact h2 L hL (by omega)
      · have : L = k + 1 := by omega
        subst this
        exact hc
    · cases h
      exact ⟨hc, fun L hL hL' => by omega⟩

/-- A failed `findBest` means no length from `1` to the bound is
accepted. -/
theorem findBest_eq_none (m : Manifest) (tokens : List String) (i : Nat) :
    ∀ (n : Nat), findBest m tokens i n = none →
      ∀ L, 1 ≤ L → L ≤ n → candidateAt m tokens i L = none := by
  intro n
  induction n with
  | zero => intro _ L _ _; omega
  | succ k ih =>
    intro h L h1 h2
    rw [findBest] at h
    cases hc : candidateAt m tokens i (k + 1) <;> rw [hc] at h
    · rcases Nat.lt_or_ge L (k + 1) with hlt | hge
      · exact ih h L h1 (by omega)
      · have : L = k + 1 := by omega
        subst this
        exact hc
    · cases h

/-- The matcher loop gives the same answer for any fuel covering the
remaining token count: each iteration advances `i` by at least one. -/
theorem greedyMatchPhrasesAux_fuel (m : Manifest) (tokens : List String)
    (fuel : Nat) :
    ∀ (fuel' i : Nat), tokens.length - i ≤ fuel → tokens.length - i ≤ fuel' →
      greedyMatchPhrasesAux m tokens fuel i = greedyMatchPhrasesAux m tokens fuel' i := by
  induction fuel with
  | zero =>
    intro fuel' i hf hf'
    have hi : ¬ i < tokens.length := by omega
    cases fuel' with
    | zero => rfl
    | succ k => simp [greedyMatchPhrasesAux, hi]
  | succ fuel ih =>
    intro fuel' i hf hf'
    by_cases hi : i < tokens.length
    · cases fuel' with
      | zero => omega
      | succ fuel' =>
        simp only [greedyMatchPhrasesAux, dif_pos hi]
        by_cases hp : isPunct tokens[i]
        · simp only [hp, if_true]
          exact ih fuel' (i + 1) (by omega) (by omega)
        · simp only [hp, if_false]
          cases hb : findBest m tokens i (min maxPhraseLength (tokens.length - i)) with
          | none => exact ih fuel' (i + 1) (by omega) (by omega)
          | some r =>
            obtain ⟨p, len⟩ := r
            have hlen := (findBest_len_bounds m tokens i _ p len hb).1
            simp only []
            rw [ih fuel' (i + len) (by omega) (by omega)]
            simp
    · cases fuel' <;> simp [greedyMatchPhrasesAux, hi]

/-! ## Matcher invariants -/

/-- An accepted candidate at `(i, L)` with `L ≥ 1` lies inside the token
list, and every token it covers is a non-punctuation token: the inner
collection loop stops at punctuation, and a shorter collection is
rejected by the exact-length check. -/
theorem candidateAt_spec (m : Manifest) (tokens : List String) (i L : Nat)
    (p : String) (hL : 1 ≤ L) (h : candidateAt m tokens i L = some p) :
    i + L ≤ tokens.length ∧
    ∀ j, i ≤ j → j < i + L → isPunct (tokens.getD j "") = false := by
  simp only [candidateAt] at h
  split at h
  case isFalse => exact absurd h (by simp)
  case isTrue h1 =>
    have hLle : L ≤ ((tokens.drop i).takeWhile (fun t => !isPunct t)).length := by
      rw [List.length_take] at h1
      omega
    have htw := (List.takeWhile_prefix (l := tokens.drop i)
      (fun t => !isPunct t)).length_le
    rw [List.length_drop] at htw
    have hbound : i + L ≤ tokens.length := by omega
    refine ⟨hbound, fun j hij hjL => ?_⟩
    have hk : j - i < L := by omega
    have h2 : j - i < ((tokens.drop i).takeWhile (fun t => !isPunct t)).length :=
      lt_of_lt_of_le hk hLle
    have h3 := (List.takeWhile_prefix (l := tokens.drop i)
      (fun t => !isPunct t)).getElem h2
    have h4 := List.mem_takeWhile_imp
      (List.getElem_mem (l := (tokens.drop i).takeWhile (fun t => !isPunct t)) h2)
    rw [h3] at h4
    have h5 : i + (j - i) = j := by omega
    rw [List.getElem_drop] at h4
    simp only [h5] at h4
    have hj : j < tokens.length := by omega
    rw [List.getD_eq_getElem tokens "" hj]
    simpa using h4

/-- Every match the outer loop emits from position `i` starts at or
after `i`, is non-degenerate, stays inside the token list, and is an
accepted candidate of its own length at its own start; and the emitted
matches are pairwise ordered, each ending before the next starts. -/
theorem greedyMatchPhrasesAux_invariant (m : Manifest) (tokens : List String) :
    ∀ (fuel i : Nat),
      (∀ mt ∈ greedyMatchPhrasesAux m tokens fuel i,
        i ≤ mt.start ∧ mt.start < mt.stop ∧ mt.stop ≤ tokens.length ∧
        candidateAt m tokens mt.start (mt.stop - mt.start) = some mt.phrase) ∧
      (greedyMatchPhrasesAux m tokens fuel i).Pairwise
        (fun a b => a.stop ≤ b.start) := by
  intro fuel
  induction fuel with
  | zero => intro i; simp [greedyMatchPhrasesAux]
  | succ fuel ih =>
    intro i
    by_cases hi : i < tokens.length
    · rw [greedyMatchPhrasesAux, dif_pos hi]
      by_cases hp : isPunct tokens[i]
      · simp only [hp, if_true]
        refine ⟨fun mt hmt => ?_, (ih (i + 1)).2⟩
        have := (ih (i + 1)).1 mt hmt
        exact ⟨by omega, this.2⟩
      · simp only [hp, Bool.false_eq_true, if_false]
        cases hb : findBest m tokens i (min maxPhraseLength (tokens.length - i)) with
        | none =>
          simp only []
          refine ⟨fun mt hmt => ?_, (ih (i + 1)).2⟩
          have := (ih (i + 1)).1 mt hmt
          exact ⟨by omega, this.2⟩
        | some r =>
          obtain ⟨p, len⟩ := r
          obtain ⟨hl1, _⟩ := findBest_len_bounds m tokens i _ p len hb
          obtain ⟨hcand, _⟩ := findBest_eq_some m tokens i _ p len hb
          have hstop := (candidateAt_spec m tokens i len p hl1 hcand).1
          simp only []
          constructor
          · intro mt hmt
            rcases List.mem_cons.mp hmt with rfl | hmt
            · refine ⟨Nat.le_refl i, show i < i + len by omega,
                show i + len ≤ tokens.length by omega, ?_⟩
              show candidateAt m tokens i (i + len - i) = some p
              rw [Nat.add_sub_cancel_left]
              exact hcand
            · have := (ih (i + len)).1 mt hmt
              exact ⟨by omega, this.2⟩
          · rw [List.pairwise_cons]
            refine ⟨fun mt hmt => ?_, (ih (i + len)).2⟩
            have := (ih (i + len)).1 mt hmt
            simpa using this.1
    · rw [greedyMatchPhrasesAux, dif_neg hi]
      simp

/-! ## Matcher step equations -/

/-- The matcher loop exits once `i` reaches the end of the tokens. -/
theorem greedyMatchPhrasesAux_stop (m : Manifest) (tokens : List String)
    (fuel i : Nat) (h : tokens.length ≤ i) :
    greedyMatchPhrasesAux m tokens fuel i = [] := by
  cases fuel with
  | zero => rfl
  | succ fuel => rw [greedyMatchPhrasesAux, dif_neg (by omega)]

/-- The matcher loop skips a punctuation token. -/
theorem greedyMatchPhrasesAux_punct (m : Manifest) (tokens : List String)
    (fuel i : Nat) (h : i < tokens.length) (hp : isPunct tokens[i] = true) :
    greedyMatchPhrasesAux m tokens (fuel + 1) i =
      greedyMatchPhrasesAux m tokens fuel (i + 1) := by
  rw [greedyMatchPhrasesAux, dif_pos h, if_pos hp]

/-- At a word token where `findBest` succeeds, the matcher records the
match and jumps past it. -/
theorem greedyMatchPhrasesAux_match (m : Manifest) (tokens : List String)
    (fuel i : Nat) (p : String) (len : Nat) (h : i < tokens.length)
    (hp : isPunct tokens[i] = false)
    (hf : findBest m tokens i (min maxPhraseLength (tokens.length - i)) = some (p, len)) :
    greedyMatchPhrasesAux m tokens (fuel + 1) i =
      { phrase := p, start := i, stop := i + len } ::
        greedyMatchPhrasesAux m tokens fuel (i + len) := by
  rw [greedyMatchPhrasesAux, dif_pos h, if_neg (by simp [hp]), hf]

/-- At a word token where `findBest` fails, the matcher advances by
one. -/
theorem greedyMatchPhrasesAux_nomatch (m : Manifest) (tokens : List String)
    (fuel i : Nat) (h : i < tokens.length) (hp : isPunct tokens[i] = false)
    (hf : findBest m tokens i (min maxPhraseLength (tokens.length - i)) = none) :
    greedyMatchPhrasesAux m tokens (fuel + 1) i =
      greedyMatchPhrasesAux m tokens fuel (i + 1) := by
  rw [greedyMatchPhrasesAux, dif_pos h, if_neg (by simp [hp]), hf]

/-! ## Claim theorems: the phrase matcher -/

/-- C1: for any phrase dictionary in which both `"good morning"` and
`"morning"` exist with non-empty clip pools, matching the tokens
`["good", "morning"]` returns exactly the single match
`{phrase: "good morning", start: 0, end: 2}`; and in general a
successful `findBest` at a position returns an accepted candidate of
its length while every longer length up to the bound
`min(maxPhraseLength, tokens.length - i)` has no accepted candidate, so
no shorter length is ever preferred over an available longer one. -/
theorem C1_longest_match_greediness :
    (∀ m : Manifest,
        m.phraseMap "good morning" = true → m.phraseClips "good morning" ≠ [] →
        m.phraseMap "morning" = true → m.phraseClips "morning" ≠ [] →
        greedyMatchPhrases m ["good", "morning"] =
          [{ phrase := "good morning", start := 0, stop := 2 }]) ∧
    (∀ (m : Manifest) (tokens : List String) (i : Nat) (p : String) (len : Nat),
        findBest m tokens i (min maxPhraseLength (tokens.length - i)) = some (p, len) →
        candidateAt m tokens i len = some p ∧
        ∀ L, len < L → L ≤ min maxPhraseLength (tokens.length - i) →
          candidateAt m tokens i L = none) := by
  constructor
  · intro m h1 h2 _h3 _h4
    have hg : isPunct "good" = false := by decide
    have hm : isPunct "morning" = false := by decide
    have hgm : (m.phraseClips "good morning").length > 0 := List.length_pos.mpr h2
    have hj : " ".intercalate ["good", "morning"] = "good morning" := by decide
    have hcand : candidateAt m ["good", "morning"] 0 2 = some "good morning" := by
      simp [candidateAt, hg, hm, hj, h1, hgm]
    have hfb : findBest m ["good", "morning"] 0
        (min maxPhraseLength ((["good", "morning"] : List String).length - 0)) =
        some ("good morning", 2) := by
      have hmin : min maxPhraseLength ((["good", "morning"] : List String).length - 0) = 2 := by
        decide
      rw [hmin]
      show findBest m ["good", "morning"] 0 (1 + 1) = some ("good morning", 2)
      rw [findBest, hcand]
    have e1 : greedyMatchPhrasesAux m ["good", "morning"] 2 0 =
        { phrase := "good morning", start := 0, stop := 0 + 2 } ::
          greedyMatchPhrasesAux m ["good", "morning"] 1 (0 + 2) :=
      greedyMatchPhrasesAux_match m _ 1 0 "good morning" 2 (by decide) (by decide) hfb
    rw [greedyMatchPhrases]
    show greedyMatchPhrasesAux m ["good", "morning"] 2 0 = _
    rw [e1, greedyMatchPhrasesAux_stop m _ 1 (0 + 2) (by decide)]
  · intro m tokens i p len hb
    exact findBest_eq_some m tokens i _ p len hb

/-- C2: for every manifest and token list, every match returned by
`greedyMatchPhrases` has `stop > start`; each match ends at or before
the next one starts (so no two ranges overlap); and the matches are
strictly sorted by `start`. -/
theorem C2_nonoverlap_sorted (m : Manifest) (tokens : List String) :
    (∀ mt ∈ greedyMatchPhrases m tokens, mt.start < mt.stop) ∧
    List.Pairwise (fun a b => a.stop ≤ b.start) (greedyMatchPhrases m tokens) ∧
    List.Pairwise (fun a b => a.start < b.start) (greedyMatchPhrases m tokens) := by
  obtain ⟨hmem, hpw⟩ := greedyMatchPhrasesAux_invariant m tokens tokens.length 0
  refine ⟨fun mt hmt => (hmem mt hmt).2.1, hpw, ?_⟩
  exact hpw.imp_of_mem (fun ha hb hr => lt_of_lt_of_le ((hmem _ ha).2.1) hr)

/-! ## Claim theorems: the clip selector -/

/-- A non-empty pool always yields a selection from the chosen sub-pool
(the unused clips if any remain, else the whole pool): the index is
reduced modulo the positive sub-pool length. -/
theorem selectClip_of_ne_nil (md5Head8 : String → Nat) (pool : List Clip)
    (used : List String) (seed : String) (h : pool.length ≠ 0) :
    ∃ c, c ∈ (if (pool.filter (fun clip => !used.contains clip.filename)).length > 0
              then pool.filter (fun clip => !used.contains clip.filename) else pool) ∧
      selectClip md5Head8 pool used seed = (some c, c.filename :: used) := by
  rw [selectClip, if_neg h]
  simp only []
  set p2 := (if (pool.filter (fun clip => !used.contains clip.filename)).length > 0
             then pool.filter (fun clip => !used.contains clip.filename) else pool) with hp2
  have hplen : 0 < p2.length := by
    rw [hp2]; split
    · omega
    · omega
  have hidx : md5Head8 seed % p2.length < p2.length := Nat.mod_lt _ hplen
  rw [List.getElem?_eq_getElem hidx]
  exact ⟨p2.get ⟨md5Head8 seed % p2.length, hidx⟩, List.getElem_mem hidx, rfl⟩

/-- Every clip of the chosen sub-pool comes from the full pool. -/
theorem selectClip_subpool_subset (pool : List Clip) (used : List String)
    (c : Clip)
    (hc : c ∈ (if (pool.filter (fun clip => !used.contains clip.filename)).length > 0
               then pool.filter (fun clip => !used.contains clip.filename) else pool)) :
    c ∈ pool := by
  split at hc
  · exact List.mem_of_mem_filter hc
  · exact hc

/-- C5: `selectClip` returns `null` exactly when the pool is empty (a
missing pool is the empty pool); in particular, even when every clip's
filename is already in `usedClips`, a non-empty pool still yields some
clip of the full pool, because the empty unused sub-pool falls back to
the whole pool. -/
theorem C5_selectClip_null_iff_empty (md5Head8 : String → Nat) (pool : List Clip)
    (used : List String) (seed : String) :
    ((selectClip md5Head8 pool used seed).1 = none ↔ pool = []) ∧
    ((∀ c ∈ pool, c.filename ∈ used) → pool ≠ [] →
      ∃ c ∈ pool, (selectClip md5Head8 pool used seed).1 = some c) := by
  by_cases hp : pool.length = 0
  · have hnil : pool = [] := List.eq_nil_of_length_eq_zero hp
    subst hnil
    simp [selectClip]
  · have hne : pool ≠ [] := fun hcon => hp (by simp [hcon])
    obtain ⟨c, hc, hsel⟩ := selectClip_of_ne_nil md5Head8 pool used seed hp
    constructor
    · rw [hsel]
      simp [hne]
    · intro hall _
      refine ⟨c, selectClip_subpool_subset pool used c hc, ?_⟩
      rw [hsel]

/-! ## Claim theorems: normalizer, static fallback, entry point -/

/-- C8: normalizing `café’s “quote”` (and the same text with straight
quotes) yields exactly the tokens `["cafe's", '"', 'quote', '"']`: the
double quotes become single-character punctuation tokens, the
apostrophe survives inside the word token, and the accent on `é` is
stripped to `e`. -/
theorem C8_quote_diacritic_folding :
    normalizeAndTokenize "café’s “quote”" = ["cafe's", "\"", "quote", "\""] ∧
    normalizeAndTokenize "café's \"quote\"" = ["cafe's", "\"", "quote", "\""] :=
  ⟨by decide, by decide⟩

/-- C9: `generatePlaylist` fails, with the descriptive error the source
throws, exactly when the manifest carries no fixed token sequence (the
entry point takes no raw-text input at all); with fixed tokens present
it always returns a full result — the matcher, script builder and
serializer are total, so nothing else in the pipeline aborts
generation. -/
theorem C9_missing_fixed_tokens_only_abort (md5Head8 : String → Nat)
    (r2BaseUrl : Option String) (m : Manifest) (sessionId now : String) :
    (m.fixedTokens = none →
      generatePlaylist md5Head8 r2BaseUrl m sessionId now =
        Except.error "No fixed text available in manifest") ∧
    (∀ tokens, m.fixedTokens = some tokens →
      generatePlaylist md5Head8 r2BaseUrl m sessionId now =
        Except.ok { playlist := buildM3U8 r2BaseUrl
                      (generateScript md5Head8 m tokens (greedyMatchPhrases m tokens) sessionId)
                      sessionId now,
                    script := generateScript md5Head8 m tokens (greedyMatchPhrases m tokens) sessionId,
                    tokens := tokens,
                    matchList := greedyMatchPhrases m tokens }) := by
  constructor
  · intro h; rw [generatePlaylist, h]
  · intro tokens h; rw [generatePlaylist, h]

/-- C7: the curly-quote normalization the spec describes for
`getStaticClip` is absent from the code: at the curly left double
quotation mark U+201C, with a punctuation pool holding clips for `"`
and `.`, the code misses the direct lookup (its comparisons test the
ASCII quote against itself) and falls back to the period clip instead
of returning the double-quote clip. -/
theorem C7_curly_quote_not_normalized :
    getStaticClip quoteDotManifest "“" = some { filename := "dot.ts", duration := 1 } ∧
    getStaticClip quoteDotManifest "\"" = some { filename := "quote.ts", duration := 1 } ∧
    ({ filename := "dot.ts", duration := 1 } : Clip) ≠ { filename := "quote.ts", duration := 1 } :=
  ⟨by decide, by decide, by decide⟩

/-- C10: a non-empty token made only of apostrophes and/or hyphens is
emitted by the tokenizer as a single word-run token, yet the
punctuation test classifies it as punctuation (it has no word
character): the matcher never covers its position with a match, and
`getStaticClip` resolves it through `staticClips.punctuation` (variant
mapping plus the `'.'` default) rather than slugifying it for
`staticClips.words`. -/
theorem C10_apostrophe_hyphen_classified_punctuation (t : String)
    (h1 : t.data ≠ []) (h2 : ∀ c ∈ t.data, c = '\'' ∨ c = '-') :
    normalizeAndTokenize t = [t] ∧
    isPunct t = true ∧
    (∀ (m : Manifest) (tokens : List String) (i : Nat) (mt : PhraseMatch),
        mt ∈ greedyMatchPhrases m tokens → tokens.getD i "" = t →
        ¬(mt.start ≤ i ∧ i < mt.stop)) ∧
    (∀ m : Manifest, getStaticClip m t =
        match m.punctuationClips (punctVariant t) with
        | some clip => some clip
        | none => m.punctuationClips ".") := by
  have hpunct : isPunct t = true := by
    rw [isPunct, Bool.and_eq_true]
    constructor
    · simp [List.isEmpty_iff, h1]
    · rw [List.all_eq_true]
      intro c hc
      rcases h2 c hc with rfl | rfl <;> decide
  have hw : ∀ c ∈ t.data, wordRunChar c = true := by
    intro c hc; rcases h2 c hc with rfl | rfl <;> decide
  have htok : tokenizeChars t.data = [String.mk t.data] := by
    cases hd : t.data with
    | nil => exact absurd hd h1
    | cons c cs =>
      rw [hd] at hw
      have hcs : ∀ x ∈ cs, wordRunChar x = true := fun x hx => hw x (List.mem_cons_of_mem c hx)
      have htw : cs.takeWhile wordRunChar = cs := List.takeWhile_eq_self_iff.mpr hcs
      have hdw : cs.dropWhile wordRunChar = [] := List.dropWhile_eq_nil_iff.mpr hcs
      rw [tokenizeChars]
      show tokenizeCharsAux (cs.length + 1) (c :: cs) = _
      rw [tokenizeCharsAux, if_pos (hw c (List.mem_cons_self c cs)), htw, hdw]
      cases cs.length <;> rfl
  refine ⟨?_, hpunct, ?_, ?_⟩
  · rw [normalizeAndTokenize]
    have s1 : t.data.filter
        (fun c => !(c = '﻿' || c = '​' || c = '‌' || c = '‍')) = t.data := by
      rw [List.filter_eq_self]
      intro c hc; rcases h2 c hc with rfl | rfl <;> decide
    rw [s1]
    have s2 : t.data.map quoteMapChar = t.data := by
      conv_rhs => rw [(List.map_id t.data).symm]
      apply List.map_congr_left
      intro c hc; rcases h2 c hc with rfl | rfl <;> decide
    rw [s2]
    have s3 : ∀ l : List Char, (∀ c ∈ l, c = '\'' ∨ c = '-') →
        l.flatMap nfdChar = l := by
      intro l hl
      induction l with
      | nil => rfl
      | cons c cs ih =>
        rw [List.flatMap_cons, ih (fun x hx => hl x (List.mem_cons_of_mem c hx))]
        rcases hl c (List.mem_cons_self c cs) with rfl | rfl <;> rfl
    rw [s3 t.data h2]
    have s4 : t.data.filter (fun c => !combiningMark c) = t.data := by
      rw [List.filter_eq_self]
      intro c hc; rcases h2 c hc with rfl | rfl <;> decide
    rw [s4]
    have s5 : t.data.map Char.toLower = t.data := by
      conv_rhs => rw [(List.map_id t.data).symm]
      apply List.map_congr_left
      intro c hc; rcases h2 c hc with rfl | rfl <;> decide
    rw [s5, htok]
  · rintro m tokens i mt hmt hti ⟨hsi, his⟩
    obtain ⟨_, hlt, _, hcand⟩ :=
      (greedyMatchPhrasesAux_invariant m tokens tokens.length 0).1 mt hmt
    have hone : 1 ≤ mt.stop - mt.start := by omega
    have hnp := (candidateAt_spec m tokens mt.start _ mt.phrase hone hcand).2
      i hsi (by omega)
    rw [hti, hpunct] at hnp
    cases hnp
  · intro m
    rw [getStaticClip, if_pos hpunct]

/-! ## Claim theorems: determinism of the pipeline -/

/-- C4 counterexample: with tokens, manifest and session seed all held
fixed, two runs at different clock readings produce different playlist
strings (the `# Generated:` comment embeds the timestamp), so the
output is not a function of `(tokens, manifest, sessionSeed)` alone. -/
theorem C4_clock_dependence_counterexample :
    (generatePlaylist md5Model none emptyManifest "sid" "2025-01-01T00:00:00.000Z").toOption.map
        GenerateResult.playlist ≠
      (generatePlaylist md5Model none emptyManifest "sid" "2025-01-01T00:00:01.000Z").toOption.map
        GenerateResult.playlist := by decide

/-- C4 (amended): given `(tokens, manifest, sessionSeed)` the matches,
the script and the token list are identical across runs regardless of
the clock; the playlist string additionally depends on the generation
timestamp, but only in its `# Generated:` comment line (line index 5) —
replacing that one line turns one run's playlist lines into the
other's. -/
theorem C4_deterministic_given_timestamp (md5Head8 : String → Nat)
    (r2BaseUrl : Option String) (m : Manifest) (sessionId now now' : String) :
    ((generatePlaylist md5Head8 r2BaseUrl m sessionId now).toOption.map
        (fun r => (r.tokens, r.matchList, r.script)) =
      (generatePlaylist md5Head8 r2BaseUrl m sessionId now').toOption.map
        (fun r => (r.tokens, r.matchList, r.script))) ∧
    (∀ script sid, buildM3U8Lines r2BaseUrl script sid now =
        (buildM3U8Lines r2BaseUrl script sid now').set 5 ("# Generated: " ++ now)) := by
  constructor
  · cases h : m.fixedTokens <;> simp [generatePlaylist, h, Except.toOption]
  · intro script sid
    rfl

/-- C10's theorem applied at the concrete token `"--"`. -/
theorem C10_witness :
    ("--" : String).data ≠ [] ∧
    (∀ c ∈ ("--" : String).data, c = '\'' ∨ c = '-') ∧
    (normalizeAndTokenize "--" = ["--"] ∧
     isPunct "--" = true ∧
     (∀ (m : Manifest) (tokens : List String) (i : Nat) (mt : PhraseMatch),
         mt ∈ greedyMatchPhrases m tokens → tokens.getD i "" = "--" →
         ¬(mt.start ≤ i ∧ i < mt.stop)) ∧
     (∀ m : Manifest, getStaticClip m "--" =
         match m.punctuationClips (punctVariant "--") with
         | some clip => some clip
         | none => m.punctuationClips ".")) :=
  ⟨by decide, by decide,
   C10_apostrophe_hyphen_classified_punctuation "--" (by decide) (by decide)⟩


/-! ## Claim theorems: the playlist serializer -/

/-- An `#EXTINF` duration line is tagged as such. -/
theorem extinfTag_extinf (s : String) : extinfTag ("#EXTINF:" ++ s ++ ",") = true := by
  rw [extinfTag, String.data_append, String.data_append, List.isPrefixOf_iff_prefix,
    List.append_assoc]
  exact List.prefix_append _ _

theorem extinfTag_session (s : String) : extinfTag ("# Session: " ++ s) = false := by
  rw [extinfTag, String.data_append]; rfl

theorem extinfTag_generated (s : String) : extinfTag ("# Generated: " ++ s) = false := by
  rw [extinfTag, String.data_append]; rfl

theorem extinfTag_clips (s : String) : extinfTag ("# Clips: " ++ s) = false := by
  rw [extinfTag, String.data_append]; rfl

theorem extinfTag_total (s : String) :
    extinfTag ("# Total duration: " ++ s ++ "s") = false := by
  rw [extinfTag, String.data_append, String.data_append]; rfl

theorem extinfTag_head_ne (c : Char) (r : List Char) (hc : c ≠ '#') :
    ("#EXTINF:".data.isPrefixOf (c :: r)) = false := by
  rw [Bool.eq_false_iff]
  intro h
  rw [List.isPrefixOf_iff_prefix] at h
  have h2 : ('#' :: "EXTINF:".data) <+: c :: r := h
  exact hc (List.cons_prefix_cons.mp h2).1.symm

theorem extinfTag_openerPath (r2BaseUrl : Option String)
    (hb : ∀ b, r2BaseUrl = some b → b.data.headD '/' ≠ '#') :
    extinfTag (openerPath r2BaseUrl) = false := by
  cases r2BaseUrl with
  | none => decide
  | some b =>
    have hc := hb b rfl
    rw [openerPath, extinfTag, String.data_append]
    cases hbd : b.data with
    | nil => rfl
    | cons c cs =>
      rw [hbd] at hc
      simp only [List.headD_cons] at hc
      simp only [List.cons_append]
      exact extinfTag_head_ne c _ hc

theorem extinfTag_clipPath (r2BaseUrl : Option String) (item : ScriptItem)
    (hb : ∀ b, r2BaseUrl = some b → b.data.headD '/' ≠ '#') :
    extinfTag (clipPath r2BaseUrl item) = false := by
  cases r2BaseUrl with
  | none =>
    rw [clipPath]
    split <;> (rw [extinfTag, String.data_append]; rfl)
  | some b =>
    have hc := hb b rfl
    rw [clipPath]
    split <;>
    · rw [extinfTag, String.data_append, String.data_append]
      cases hbd : b.data with
      | nil => rfl
      | cons c cs =>
        rw [hbd] at hc
        simp only [List.headD_cons] at hc
        simp only [List.cons_append]
        exact extinfTag_head_ne c _ hc

theorem flatten_segs_index (Q : String → Prop) :
    ∀ (segs : List (List String)) (T : List String),
      (∀ t ∈ T, extinfTag t = false) →
      (∀ s ∈ segs, ∃ e u, s = ["#EXT-X-DISCONTINUITY", e, u] ∧
          extinfTag e = true ∧ extinfTag u = false ∧ Q u) →
      ∀ k line, (segs.flatten ++ T)[k]? = some line → extinfTag line = true →
        1 ≤ k ∧ (segs.flatten ++ T)[k - 1]? = some "#EXT-X-DISCONTINUITY" ∧
        ∃ url, (segs.flatten ++ T)[k + 1]? = some url ∧ extinfTag url = false ∧ Q url := by
  intro segs
  induction segs with
  | nil =>
    intro T hT _ k line hk hext
    simp only [List.flatten_nil, List.nil_append] at hk
    have hmem : line ∈ T := List.mem_iff_getElem?.mpr ⟨k, hk⟩
    rw [hT line hmem] at hext
    cases hext
  | cons s segs ih =>
    intro T hT hseg k line hk hext
    obtain ⟨e, u, rfl, he, hu, hq⟩ := hseg s (List.mem_cons_self s segs)
    have hseg' : ∀ x ∈ segs, ∃ e u, x = ["#EXT-X-DISCONTINUITY", e, u] ∧
        extinfTag e = true ∧ extinfTag u = false ∧ Q u :=
      fun x hx => hseg x (List.mem_cons_of_mem _ hx)
    simp only [List.flatten_cons, List.cons_append, List.nil_append] at hk ⊢
    match k with
    | 0 =>
      simp only [List.getElem?_cons_zero, Option.some.injEq] at hk
      rw [← hk] at hext
      exact absurd hext (by decide)
    | 1 =>
      refine ⟨Nat.le_refl 1, by simp, u, by simp, hu, hq⟩
    | 2 =>
      simp only [show (("#EXT-X-DISCONTINUITY" : String) :: e :: u :: (segs.flatten ++ T))[2]? =
          some u by simp, Option.some.injEq] at hk
      rw [← hk, hu] at hext
      cases hext
    | (k + 3) =>
      have e1 : (("#EXT-X-DISCONTINUITY" : String) :: e :: u :: (segs.flatten ++ T))[k + 3]? =
          (segs.flatten ++ T)[k]? := by simp
      rw [e1] at hk
      obtain ⟨hk1, hdisc, url, hurl, huf, hq2⟩ := ih T hT hseg' k line hk hext
      obtain ⟨j, rfl⟩ : ∃ j, k = j + 1 := ⟨k - 1, by omega⟩
      refine ⟨by omega, ?_, url, ?_, huf, hq2⟩
      · have e2 : (("#EXT-X-DISCONTINUITY" : String) :: e :: u :: (segs.flatten ++ T))[j + 3 + 1 - 1]? =
            (segs.flatten ++ T)[j]? := by
          simp [show j + 3 + 1 - 1 = j + 3 from rfl]
        rw [e2]
        simpa using hdisc
      · have e3 : (("#EXT-X-DISCONTINUITY" : String) :: e :: u :: (segs.flatten ++ T))[j + 3 + 1 + 1]? =
            (segs.flatten ++ T)[j + 2]? := by
          simp [show j + 3 + 1 + 1 = j + 5 from rfl]
        rw [e3]
        simpa using hurl

theorem prepend_segs_index (Q : String → Prop) :
    ∀ (P L : List String),
      (∀ p ∈ P, extinfTag p = false) →
      (∀ k line, L[k]? = some line → extinfTag line = true →
        1 ≤ k ∧ L[k - 1]? = some "#EXT-X-DISCONTINUITY" ∧
        ∃ url, L[k + 1]? = some url ∧ extinfTag url = false ∧ Q url) →
      ∀ k line, (P ++ L)[k]? = some line → extinfTag line = true →
        1 ≤ k ∧ (P ++ L)[k - 1]? = some "#EXT-X-DISCONTINUITY" ∧
        ∃ url, (P ++ L)[k + 1]? = some url ∧ extinfTag url = false ∧ Q url := by
  intro P
  induction P with
  | nil =>
    intro L _ hL k line hk hext
    simp only [List.nil_append] at hk ⊢
    exact hL k line hk hext
  | cons p P ih =>
    intro L hP hL k line hk hext
    have hP' : ∀ x ∈ P, extinfTag x = false := fun x hx => hP x (List.mem_cons_of_mem _ hx)
    simp only [List.cons_append] at hk ⊢
    match k with
    | 0 =>
      simp only [List.getElem?_cons_zero, Option.some.injEq] at hk
      rw [← hk, hP p (List.mem_cons_self p P)] at hext
      cases hext
    | (k + 1) =>
      have e1 : (p :: (P ++ L))[k + 1]? = (P ++ L)[k]? := by simp
      rw [e1] at hk
      obtain ⟨hk1, hdisc, url, hurl, huf, hq2⟩ := ih L hP' hL k line hk hext
      obtain ⟨j, rfl⟩ : ∃ j, k = j + 1 := ⟨k - 1, by omega⟩
      refine ⟨by omega, ?_, url, ?_, huf, hq2⟩
      · have e2 : (p :: (P ++ L))[j + 1 + 1 - 1]? = (P ++ L)[j]? := by simp
        rw [e2]
        simpa using hdisc
      · have e3 : (p :: (P ++ L))[j + 1 + 1 + 1]? = (P ++ L)[j + 2]? := by simp
        rw [e3]
        simpa using hurl

theorem countP_segs (segs : List (List String)) (T : List String)
    (hT : ∀ t ∈ T, extinfTag t = false)
    (hseg : ∀ s ∈ segs, ∃ e u, s = ["#EXT-X-DISCONTINUITY", e, u] ∧
        extinfTag e = true ∧ extinfTag u = false ∧ True) :
    (segs.flatten ++ T).countP (fun line => extinfTag line) = segs.length := by
  rw [List.countP_append]
  have hTz : T.countP (fun line => extinfTag line) = 0 := by
    induction T with
    | nil => rfl
    | cons t ts iht =>
      rw [List.countP_cons]
      rw [iht (fun x hx => hT x (List.mem_cons_of_mem _ hx))]
      simp [hT t (List.mem_cons_self t ts)]
  rw [hTz]
  induction segs with
  | nil => rfl
  | cons s segs ihs =>
    obtain ⟨e, u, rfl, he, hu, -⟩ := hseg s (List.mem_cons_self s segs)
    have h2 := ihs (fun x hx => hseg x (List.mem_cons_of_mem _ hx))
    have hd : extinfTag "#EXT-X-DISCONTINUITY" = false := by decide
    rw [List.flatten_cons, List.countP_append]
    have h1 : List.countP (fun line => extinfTag line) ["#EXT-X-DISCONTINUITY", e, u] = 1 := by
      simp [List.countP_cons, List.countP_nil, he, hu, hd]
    rw [h1]
    simp only [List.length_cons]
    omega

theorem C6_playlist_structure (r2BaseUrl : Option String) (script : List ScriptItem)
    (sessionId now : String)
    (hb : ∀ b, r2BaseUrl = some b → b.data.headD '/' ≠ '#') :
    (buildM3U8Lines r2BaseUrl script sessionId now).head? = some "#EXTM3U" ∧
    (∃ A, buildM3U8Lines r2BaseUrl script sessionId now =
        A ++ ["#EXT-X-ENDLIST",
          "# Total duration: " ++
            toFixed (script.foldl (fun acc item => acc + item.duration) openerDuration) 1 ++ "s"]) ∧
    (∀ k line, (buildM3U8Lines r2BaseUrl script sessionId now)[k]? = some line →
        extinfTag line = true →
        (buildM3U8Lines r2BaseUrl script sessionId now)[k - 1]? =
          some "#EXT-X-DISCONTINUITY" ∧
        ∃ url, (buildM3U8Lines r2BaseUrl script sessionId now)[k + 1]? = some url ∧
          extinfTag url = false ∧
          (url = openerPath r2BaseUrl ∨ ∃ item ∈ script, url = clipPath r2BaseUrl item)) ∧
    (buildM3U8Lines r2BaseUrl script sessionId now).countP (fun line => extinfTag line) =
      script.length + 1 := by
  have hP : ∀ p ∈ (["#EXTM3U", "#EXT-X-VERSION:3", "#EXT-X-TARGETDURATION:10",
      "#EXT-X-PLAYLIST-TYPE:VOD", "# Session: " ++ sessionId, "# Generated: " ++ now,
      "# Clips: " ++ toString (script.length + 1)] : List String), extinfTag p = false := by
    intro p hp
    simp only [List.mem_cons, List.not_mem_nil, or_false] at hp
    rcases hp with rfl | rfl | rfl | rfl | rfl | rfl | rfl
    · decide
    · decide
    · decide
    · decide
    · exact extinfTag_session _
    · exact extinfTag_generated _
    · exact extinfTag_clips _
  have hT : ∀ t ∈ (["#EXT-X-ENDLIST",
      "# Total duration: " ++
        toFixed (script.foldl (fun acc item => acc + item.duration) openerDuration) 1 ++ "s"] :
        List String), extinfTag t = false := by
    intro t ht
    simp only [List.mem_cons, List.not_mem_nil, or_false] at ht
    rcases ht with rfl | rfl
    · decide
    · exact extinfTag_total _
  have hseg : ∀ s ∈ (["#EXT-X-DISCONTINUITY",
        "#EXTINF:" ++ toFixed openerDuration 3 ++ ",", openerPath r2BaseUrl] ::
        script.map (segmentLines r2BaseUrl)),
      ∃ e u, s = ["#EXT-X-DISCONTINUITY", e, u] ∧
        extinfTag e = true ∧ extinfTag u = false ∧
        (u = openerPath r2BaseUrl ∨ ∃ item ∈ script, u = clipPath r2BaseUrl item) := by
    intro s hs
    rcases List.mem_cons.mp hs with rfl | hs
    · exact ⟨_, _, rfl, extinfTag_extinf _, extinfTag_openerPath _ hb, Or.inl rfl⟩
    · obtain ⟨item, hitem, rfl⟩ := List.mem_map.mp hs
      exact ⟨_, _, rfl, extinfTag_extinf _, extinfTag_clipPath _ item hb,
        Or.inr ⟨item, hitem, rfl⟩⟩
  have hinner := flatten_segs_index
    (fun url => url = openerPath r2BaseUrl ∨ ∃ item ∈ script, url = clipPath r2BaseUrl item)
    (["#EXT-X-DISCONTINUITY", "#EXTINF:" ++ toFixed openerDuration 3 ++ ",",
      openerPath r2BaseUrl] :: script.map (segmentLines r2BaseUrl))
    (["#EXT-X-ENDLIST",
      "# Total duration: " ++
        toFixed (script.foldl (fun acc item => acc + item.duration) openerDuration) 1 ++ "s"])
    hT hseg
  have houter := prepend_segs_index
    (fun url => url = openerPath r2BaseUrl ∨ ∃ item ∈ script, url = clipPath r2BaseUrl item)
    (["#EXTM3U", "#EXT-X-VERSION:3", "#EXT-X-TARGETDURATION:10",
      "#EXT-X-PLAYLIST-TYPE:VOD", "# Session: " ++ sessionId, "# Generated: " ++ now,
      "# Clips: " ++ toString (script.length + 1)])
    _ hP hinner
  refine ⟨rfl, ?_, ?_, ?_⟩
  · exact ⟨["#EXTM3U", "#EXT-X-VERSION:3", "#EXT-X-TARGETDURATION:10",
      "#EXT-X-PLAYLIST-TYPE:VOD", "# Session: " ++ sessionId, "# Generated: " ++ now,
      "# Clips: " ++ toString (script.length + 1), "#EXT-X-DISCONTINUITY",
      "#EXTINF:" ++ toFixed openerDuration 3 ++ ",", openerPath r2BaseUrl] ++
      (script.map (segmentLines r2BaseUrl)).flatten, rfl⟩
  · intro k line hk hext
    exact ⟨(houter k line hk hext).2.1, (houter k line hk hext).2.2⟩
  · show (["#EXTM3U", "#EXT-X-VERSION:3", "#EXT-X-TARGETDURATION:10",
        "#EXT-X-PLAYLIST-TYPE:VOD", "# Session: " ++ sessionId, "# Generated: " ++ now,
        "# Clips: " ++ toString (script.length + 1)] ++
      ((["#EXT-X-DISCONTINUITY", "#EXTINF:" ++ toFixed openerDuration 3 ++ ",",
          openerPath r2BaseUrl] :: script.map (segmentLines r2BaseUrl)).flatten ++
        ["#EXT-X-ENDLIST",
         "# Total duration: " ++
           toFixed (script.foldl (fun acc item => acc + item.duration) openerDuration) 1 ++ "s"])).countP
        (fun line => extinfTag line) = script.length + 1
    rw [List.countP_append]
    have hP0 : (["#EXTM3U", "#EXT-X-VERSION:3", "#EXT-X-TARGETDURATION:10",
        "#EXT-X-PLAYLIST-TYPE:VOD", "# Session: " ++ sessionId, "# Generated: " ++ now,
        "# Clips: " ++ toString (script.length + 1)] : List String).countP
        (fun line => extinfTag line) = 0 := by
      simp [List.countP_cons, extinfTag_session, extinfTag_generated, extinfTag_clips,
        show extinfTag "#EXTM3U" = false by decide,
        show extinfTag "#EXT-X-VERSION:3" = false by decide,
        show extinfTag "#EXT-X-TARGETDURATION:10" = false by decide,
        show extinfTag "#EXT-X-PLAYLIST-TYPE:VOD" = false by decide]
    have hC := countP_segs
      (["#EXT-X-DISCONTINUITY", "#EXTINF:" ++ toFixed openerDuration 3 ++ ",",
        openerPath r2BaseUrl] :: script.map (segmentLines r2BaseUrl))
      (["#EXT-X-ENDLIST",
        "# Total duration: " ++
          toFixed (script.foldl (fun acc item => acc + item.duration) openerDuration) 1 ++ "s"])
      hT (fun s hs => by
        obtain ⟨e, u, heq, he, hu, -⟩ := hseg s hs
        exact ⟨e, u, heq, he, hu, trivial⟩)
    rw [hP0, hC]
    simp

/-- The `# Total duration:` trailer comment at the concrete empty
script: `8.08.toFixed(1)` is `"8.1"`. -/
theorem toFixed_openerDuration_one : toFixed openerDuration 1 = "8.1" := by
  have h0 : ¬ (openerDuration < 0) := by norm_num [openerDuration]
  have hfl : ⌊openerDuration * (10 : ℚ) ^ (1 : ℕ) + 1 / 2⌋ = (81 : ℤ) := by
    rw [Int.floor_eq_iff]
    constructor
    · norm_num [openerDuration]
    · norm_num [openerDuration]
  rw [toFixed, if_neg h0, toFixedPos]
  rw [hfl]
  decide

/-- C6 counterexample: at the empty script the playlist's final line is
the `# Total duration:` comment, not `#EXT-X-ENDLIST`, so the playlist
does not end with the `#EXT-X-ENDLIST` line. -/
theorem C6_endlist_not_last_counterexample :
    (buildM3U8Lines none [] "sid" "now").getLast? = some "# Total duration: 8.1s" ∧
    (buildM3U8Lines none [] "sid" "now").getLast? ≠ some "#EXT-X-ENDLIST" := by
  have hlast : (buildM3U8Lines none [] "sid" "now").getLast? =
      some ("# Total duration: " ++ toFixed openerDuration 1 ++ "s") := rfl
  rw [hlast, toFixed_openerDuration_one]
  exact ⟨by decide, by decide⟩

/-- C6's structural theorem applied at the concrete configuration with
no remote base URL and the empty script. -/
theorem C6_witness :
    (∀ b, (none : Option String) = some b → b.data.headD '/' ≠ '#') ∧
    (buildM3U8Lines none [] "s" "t").countP (fun line => extinfTag line) = 0 + 1 :=
  ⟨fun _ h => Option.noConfusion h,
   (C6_playlist_structure none [] "s" "t" (fun _ h => Option.noConfusion h)).2.2.2⟩


/-! ## Claim theorems: the script builder -/

/-- The script-builder loop exits once `i` reaches the end of the
tokens. -/
theorem generateScriptAux_stop (md5Head8 : String → Nat) (m : Manifest)
    (tokens : List String) (matchList : List PhraseMatch) (seed : String)
    (fuel i : Nat) (used : List String) (h : tokens.length ≤ i) :
    generateScriptAux md5Head8 m tokens matchList seed fuel i used = [] := by
  cases fuel with
  | zero => rfl
  | succ fuel => rw [generateScriptAux, dif_neg (by omega)]

/-- At a position where a match starts, the builder selects a clip with
seed `seed + phrase`, emits at most one `phrase` item, and jumps to the
match's `end`. -/
theorem generateScriptAux_match (md5Head8 : String → Nat) (m : Manifest)
    (tokens : List String) (matchList : List PhraseMatch) (seed : String)
    (fuel i : Nat) (used : List String) (mt : PhraseMatch)
    (h : i < tokens.length)
    (hf : matchList.find? (fun mt => mt.start == i) = some mt) :
    generateScriptAux md5Head8 m tokens matchList seed (fuel + 1) i used =
      (match (selectClip md5Head8 (m.phraseClips mt.phrase) used (seed ++ mt.phrase)).1 with
       | some clip => [mkPhraseItem tokens mt clip]
       | none => []) ++
      generateScriptAux md5Head8 m tokens matchList seed fuel mt.stop
        (selectClip md5Head8 (m.phraseClips mt.phrase) used (seed ++ mt.phrase)).2 := by
  rw [generateScriptAux, dif_pos h, hf]
  cases hsel : (selectClip md5Head8 (m.phraseClips mt.phrase) used (seed ++ mt.phrase)).1 <;>
    simp [hsel]

/-- At a covered position where no match starts, the builder emits
nothing, attempts no fallback, and advances by one. -/
theorem generateScriptAux_covered (md5Head8 : String → Nat) (m : Manifest)
    (tokens : List String) (matchList : List PhraseMatch) (seed : String)
    (fuel i : Nat) (used : List String)
    (h : i < tokens.length)
    (hf : matchList.find? (fun mt => mt.start == i) = none)
    (hc : coveredBy matchList i = true) :
    generateScriptAux md5Head8 m tokens matchList seed (fuel + 1) i used =
      generateScriptAux md5Head8 m tokens matchList seed fuel (i + 1) used := by
  rw [generateScriptAux, dif_pos h, hf]
  simp [hc]

/-- At an uncovered position the builder performs exactly one static
fallback resolution and emits at most one `static` item. -/
theorem generateScriptAux_static (md5Head8 : String → Nat) (m : Manifest)
    (tokens : List String) (matchList : List PhraseMatch) (seed : String)
    (fuel i : Nat) (used : List String)
    (h : i < tokens.length)
    (hf : matchList.find? (fun mt => mt.start == i) = none)
    (hc : coveredBy matchList i = false) :
    generateScriptAux md5Head8 m tokens matchList seed (fuel + 1) i used =
      (match getStaticClip m (tokens.getD i "") with
       | some staticClip => [mkStaticItem (tokens.getD i "") staticClip]
       | none => []) ++
      generateScriptAux md5Head8 m tokens matchList seed fuel (i + 1) used := by
  rw [generateScriptAux, dif_pos h, hf]
  rw [List.getD_eq_getElem tokens "" h]
  cases hsc : getStaticClip m tokens[i] <;> simp [hc, hsc]

/-- Unfolding one step of the per-index reference builder. -/
theorem runSteps_cons (md5Head8 : String → Nat) (m : Manifest)
    (tokens : List String) (matchList : List PhraseMatch) (seed : String)
    (i : Nat) (rest : List Nat) (used : List String) :
    runSteps md5Head8 m tokens matchList seed (i :: rest) used =
      ((stepAt md5Head8 m tokens matchList seed used i).1 ++
        (runSteps md5Head8 m tokens matchList seed rest
          (stepAt md5Head8 m tokens matchList seed used i).2).1,
       (runSteps md5Head8 m tokens matchList seed rest
          (stepAt md5Head8 m tokens matchList seed used i).2).2) := rfl

/-- The per-index builder over a concatenation of index lists. -/
theorem runSteps_append (md5Head8 : String → Nat) (m : Manifest)
    (tokens : List String) (matchList : List PhraseMatch) (seed : String) :
    ∀ (xs ys : List Nat) (used : List String),
      runSteps md5Head8 m tokens matchList seed (xs ++ ys) used =
        ((runSteps md5Head8 m tokens matchList seed xs used).1 ++
          (runSteps md5Head8 m tokens matchList seed ys
            (runSteps md5Head8 m tokens matchList seed xs used).2).1,
         (runSteps md5Head8 m tokens matchList seed ys
            (runSteps md5Head8 m tokens matchList seed xs used).2).2) := by
  intro xs
  induction xs with
  | nil => intro ys used; simp [runSteps]
  | cons x xs ih =>
    intro ys used
    rw [List.cons_append, runSteps_cons, runSteps_cons, ih]
    simp

/-- Indices whose step emits nothing and leaves the used set unchanged
contribute nothing. -/
theorem runSteps_skip (md5Head8 : String → Nat) (m : Manifest)
    (tokens : List String) (matchList : List PhraseMatch) (seed : String) :
    ∀ (js : List Nat) (used : List String),
      (∀ j ∈ js, ∀ u, stepAt md5Head8 m tokens matchList seed u j = ([], u)) →
      runSteps md5Head8 m tokens matchList seed js used = ([], used) := by
  intro js
  induction js with
  | nil => intro used _; rfl
  | cons j js ih =>
    intro used hj
    rw [runSteps_cons, hj j (List.mem_cons_self j js) used]
    simp [ih used (fun x hx u => hj x (List.mem_cons_of_mem _ hx) u)]

/-- A position strictly inside a match (covered but not its start) is
handled by doing nothing: no match starts there (the matches are
pairwise disjoint) and it is covered, so no fallback is attempted. -/
theorem stepAt_interior (md5Head8 : String → Nat) (m : Manifest)
    (tokens : List String) (matchList : List PhraseMatch) (seed : String)
    (hm : ∀ mt ∈ matchList, mt.start < mt.stop)
    (hdisj : ∀ a ∈ matchList, ∀ b ∈ matchList, a ≠ b → a.stop ≤ b.start ∨ b.stop ≤ a.start)
    (mt : PhraseMatch) (hmem : mt ∈ matchList) (j : Nat)
    (hj1 : mt.start < j) (hj2 : j < mt.stop) :
    ∀ u, stepAt md5Head8 m tokens matchList seed u j = ([], u) := by
  intro u
  have hfind : matchList.find? (fun x => x.start == j) = none := by
    rw [List.find?_eq_none]
    intro x hx
    simp only [beq_iff_eq]
    intro hxj
    rcases eq_or_ne x mt with rfl | hne
    · omega
    · rcases hdisj x hx mt hmem hne with hlt | hgt
      · have := hm x hx
        omega
      · omega
  have hcov : coveredBy matchList j = true := by
    rw [coveredBy, List.any_eq_true]
    refine ⟨mt, hmem, ?_⟩
    simp only [Bool.and_eq_true, decide_eq_true_eq]
    omega
  rw [stepAt, hfind]
  simp [hcov]

/-- The refinement at the heart of C3: on any pairwise-disjoint,
in-bounds match list (as the matcher produces), the jump-based
`generateScript` loop computes exactly the spec's per-index walk, which
handles every index by exactly one `stepAt`. -/
theorem generateScriptAux_eq_runSteps (md5Head8 : String → Nat) (m : Manifest)
    (tokens : List String) (matchList : List PhraseMatch) (seed : String)
    (hm : ∀ mt ∈ matchList, mt.start < mt.stop ∧ mt.stop ≤ tokens.length)
    (hdisj : ∀ a ∈ matchList, ∀ b ∈ matchList, a ≠ b → a.stop ≤ b.start ∨ b.stop ≤ a.start) :
    ∀ (fuel i : Nat) (used : List String), tokens.length - i ≤ fuel →
      generateScriptAux md5Head8 m tokens matchList seed fuel i used =
        (runSteps md5Head8 m tokens matchList seed
          (List.range' i (tokens.length - i)) used).1 := by
  intro fuel
  induction fuel with
  | zero =>
    intro i used hf
    rw [show tokens.length - i = 0 by omega,
      generateScriptAux_stop md5Head8 m tokens matchList seed 0 i used (by omega)]
    rfl
  | succ fuel ih =>
    intro i used hf
    by_cases hi : i < tokens.length
    · have hn : tokens.length - i = (tokens.length - (i + 1)) + 1 := by omega
      rw [hn, List.range'_succ, runSteps_cons]
      cases hfind : matchList.find? (fun mt => mt.start == i) with
      | some mt =>
        have hmem := List.mem_of_find?_eq_some hfind
        have hstart : mt.start = i := by
          have := List.find?_some hfind
          simpa using this
        obtain ⟨hlt, hle⟩ := hm mt hmem
        have hstep : stepAt md5Head8 m tokens matchList seed used i =
            ((match (selectClip md5Head8 (m.phraseClips mt.phrase) used (seed ++ mt.phrase)).1 with
              | some clip => [mkPhraseItem tokens mt clip]
              | none => []),
             (selectClip md5Head8 (m.phraseClips mt.phrase) used (seed ++ mt.phrase)).2) := by
          rw [stepAt, hfind]
        rw [hstep]
        rw [generateScriptAux_match md5Head8 m tokens matchList seed fuel i used mt hi hfind]
        have hsplit : List.range' (i + 1) (tokens.length - (i + 1)) =
            List.range' (i + 1) (mt.stop - (i + 1)) ++
              List.range' mt.stop (tokens.length - mt.stop) := by
          have hr := List.range'_append (i + 1) (mt.stop - (i + 1))
            (tokens.length - mt.stop) 1
          simp only [Nat.one_mul] at hr
          rw [show (i + 1) + (mt.stop - (i + 1)) = mt.stop by omega] at hr
          rw [show (tokens.length - mt.stop) + (mt.stop - (i + 1)) =
            tokens.length - (i + 1) by omega] at hr
          exact hr.symm
        rw [hsplit, runSteps_append]
        have hskip : runSteps md5Head8 m tokens matchList seed
            (List.range' (i + 1) (mt.stop - (i + 1)))
            (selectClip md5Head8 (m.phraseClips mt.phrase) used (seed ++ mt.phrase)).2 =
            ([], (selectClip md5Head8 (m.phraseClips mt.phrase) used (seed ++ mt.phrase)).2) := by
          apply runSteps_skip
          intro j hj u
          rw [List.mem_range'_1] at hj
          exact stepAt_interior md5Head8 m tokens matchList seed
            (fun x hx => (hm x hx).1) hdisj mt hmem j (by omega) (by omega) u
        rw [hskip]
        simp only [List.nil_append]
        rw [ih mt.stop _ (by omega)]
      | none =>
        by_cases hcov : coveredBy matchList i
        · have hstep : stepAt md5Head8 m tokens matchList seed used i = ([], used) := by
            rw [stepAt, hfind]
            simp [hcov]
          rw [hstep,
            generateScriptAux_covered md5Head8 m tokens matchList seed fuel i used hi hfind hcov]
          simp only [List.nil_append]
          rw [ih (i + 1) used (by omega)]
        · rw [Bool.not_eq_true] at hcov
          have hstep : stepAt md5Head8 m tokens matchList seed used i =
              ((match getStaticClip m (tokens.getD i "") with
                | some staticClip => [mkStaticItem (tokens.getD i "") staticClip]
                | none => []), used) := by
            rw [stepAt, hfind]
            rw [hcov]
            cases hsc : getStaticClip m (tokens.getD i "") <;> simp [hsc]
          rw [hstep,
            generateScriptAux_static md5Head8 m tokens matchList seed fuel i used hi hfind hcov]
          rw [ih (i + 1) used (by omega)]
    · rw [show tokens.length - i = 0 by omega,
        generateScriptAux_stop md5Head8 m tokens matchList seed (fuel + 1) i used (by omega)]
      rfl

/-- C3: on the matcher's output the script builder handles each token
index exactly one way — `generateScript` equals the per-index reference
builder `buildByIndex`, in which a covered non-start index gets no
fallback resolution and no emission, an uncovered index gets exactly
one static-fallback resolution (emitting at most one `static` item),
and an index where a match starts emits at most one `phrase` item for
the whole match. -/
theorem C3_builder_per_index_coverage (md5Head8 : String → Nat) (m : Manifest)
    (tokens : List String) (sessionId : String) :
    generateScript md5Head8 m tokens (greedyMatchPhrases m tokens) sessionId =
      buildByIndex md5Head8 m tokens (greedyMatchPhrases m tokens) sessionId ∧
    (∀ i used, coveredBy (greedyMatchPhrases m tokens) i = true →
        (greedyMatchPhrases m tokens).find? (fun mt => mt.start == i) = none →
        stepAt md5Head8 m tokens (greedyMatchPhrases m tokens) sessionId used i =
          ([], used)) ∧
    (∀ i used, coveredBy (greedyMatchPhrases m tokens) i = false →
        (greedyMatchPhrases m tokens).find? (fun mt => mt.start == i) = none ∧
        stepAt md5Head8 m tokens (greedyMatchPhrases m tokens) sessionId used i =
          ((getStaticClip m (tokens.getD i "")).toList.map (mkStaticItem (tokens.getD i "")),
           used)) ∧
    (∀ i used mt,
        (greedyMatchPhrases m tokens).find? (fun mt => mt.start == i) = some mt →
        (stepAt md5Head8 m tokens (greedyMatchPhrases m tokens) sessionId used i).1.length ≤ 1 ∧
        ∀ item ∈ (stepAt md5Head8 m tokens (greedyMatchPhrases m tokens) sessionId used i).1,
          item.type = "phrase" ∧
          item.text =
            String.intercalate " " ((tokens.drop mt.start).take (mt.stop - mt.start))) := by
  obtain ⟨hmem, hpw⟩ := greedyMatchPhrasesAux_invariant m tokens tokens.length 0
  have hm12 : ∀ mt ∈ greedyMatchPhrases m tokens,
      mt.start < mt.stop ∧ mt.stop ≤ tokens.length :=
    fun mt h => ⟨(hmem mt h).2.1, (hmem mt h).2.2.1⟩
  have hdisj : ∀ a ∈ greedyMatchPhrases m tokens, ∀ b ∈ greedyMatchPhrases m tokens,
      a ≠ b → a.stop ≤ b.start ∨ b.stop ≤ a.start := by
    have hpwR : (greedyMatchPhrases m tokens).Pairwise
        (fun a b => a.stop ≤ b.start ∨ b.stop ≤ a.start) :=
      hpw.imp (fun h => Or.inl h)
    intro a ha b hb hab
    exact hpwR.forall (fun x y h => h.symm) ha hb hab
  refine ⟨?_, ?_, ?_, ?_⟩
  · rw [generateScript, buildByIndex, List.range_eq_range']
    have := generateScriptAux_eq_runSteps md5Head8 m tokens
      (greedyMatchPhrases m tokens) sessionId hm12 hdisj tokens.length 0 [] (by omega)
    simpa using this
  · intro i used hcov hfind
    rw [stepAt, hfind]
    simp [hcov]
  · intro i used hcov
    have hfind : (greedyMatchPhrases m tokens).find? (fun mt => mt.start == i) = none := by
      rw [List.find?_eq_none]
      intro x hx
      simp only [beq_iff_eq]
      intro hxi
      have hc : coveredBy (greedyMatchPhrases m tokens) i = true := by
        rw [coveredBy, List.any_eq_true]
        refine ⟨x, hx, ?_⟩
        simp only [Bool.and_eq_true, decide_eq_true_eq]
        have := (hm12 x hx).1
        omega
      rw [hcov] at hc
      cases hc
    refine ⟨hfind, ?_⟩
    rw [stepAt, hfind]
    rw [hcov]
    cases hsc : getStaticClip m (tokens.getD i "") <;> simp [hsc, Option.toList]
  · intro i used mt hfind
    rw [stepAt, hfind]
    cases hsel : (selectClip md5Head8 (m.phraseClips mt.phrase) used
        (sessionId ++ mt.phrase)).1 with
    | none => simp [hsel]
    | some clip =>
      simp only [hsel]
      refine ⟨by simp, ?_⟩
      intro item hitem
      simp only [List.mem_singleton] at hitem
      subst hitem
      exact ⟨rfl, rfl⟩

end HLS
